import Mathlib

/-!
Shallow embedding of the PDF page-workspace editor: the data model
(`types.ts`), the assembly engine and text extraction
(`services/pdfProcessor.ts`), the insight adapter
(`services/geminiService.ts`) and the workspace event handlers of the
application component (upload, remove, rotate, drag-reorder, merge,
split, analyze).

External collaborators are modelled as explicit function parameters:
the PDF codec (`PDFLib.PDFDocument.load` / `copyPages`) as a parse
function from raw bytes to the list of abstract pages, the renderer
(`generateThumbnail`) as a thumbnail oracle, the text layer of pdf.js
(`getDocument` + `getTextContent`) as a parse function from bytes to a
list of page texts, and the Gemini call as a string oracle.  `undefined`
holes and thrown errors are made explicit with `Option` and `Except`.
-/

/-- Raw byte buffer of an uploaded file (`Uint8Array` in the source). -/
abbrev Bytes := List Nat

/-- Abstract content of a single PDF page as held by the external codec. -/
abbrev Page := Nat

/-- A document handle returned by `PDFDocument.load`: its ordered pages. -/
abbrev ParsedDoc := List Page

/-- `PDFPageReference` from `types.ts`: one page slot in the workspace
sequence.  The optional `thumbnailUrl` is the cached preview. -/
structure PDFPageReference where
  id : String
  fileId : String
  pageIndex : Nat
  rotation : Int
  thumbnailUrl : Option String
deriving DecidableEq, Repr

/-- `PDFFile` from `types.ts`: one uploaded source document. -/
structure PDFFile where
  id : String
  name : String
  size : Nat
  data : Bytes
  pageCount : Nat
deriving DecidableEq, Repr

/-- `WorkspaceState` from `types.ts`. -/
structure WorkspaceState where
  files : List PDFFile
  pages : List PDFPageReference
  isProcessing : Bool
  aiInsights : Option String
deriving DecidableEq, Repr

/-- Errors a workspace operation can terminate with.  `loadError` is a
rejection of `PDFDocument.load`; `typeError` is the JavaScript runtime
error raised when `copyPages` is applied to the `undefined` result of a
failed cache lookup; `pageRangeError` is the codec's error for an
out-of-range page index.  `assemblyError` is the wrapper the spec's
error-handling design names; it is part of the error vocabulary so that
theorems can ask whether the code ever produces it. -/
inductive JsError where
  | loadError (name : String)
  | typeError (msg : String)
  | pageRangeError (fileId : String) (pageIndex : Nat)
  | assemblyError (cause : JsError)
deriving DecidableEq, Repr

/-- Whether an error is an `AssemblyError` wrapping some underlying cause. -/
def JsError.isAssemblyWrapped : JsError → Bool
  | .assemblyError _ => true
  | _ => false

/-- A page of an assembled output document: the copied source page
content together with the rotation explicitly applied to it
(`none` when `setRotation` was not called, so the page keeps the
source page's own rotation). -/
structure OutputPage where
  content : Page
  rotation : Option Int
deriving DecidableEq, Repr

/-- The external codec: `PDFDocument.load`, returning `none` when the
bytes are not a valid PDF (the promise rejects). -/
abbrev Codec := Bytes → Option ParsedDoc

/-- The document cache built at the top of `mergeAndDownload` and
`splitAllToIndividual`: `docCache[file.id] = await PDFDocument.load
(file.data)`, iterated over `files`.  Newer assignments are consed to
the front so that `List.lookup` sees the latest binding, matching the
overwrite semantics of the JavaScript record.  A load rejection aborts
the whole operation. -/
def buildDocCache (parse : Codec) :
    List PDFFile → List (String × ParsedDoc) →
    Except JsError (List (String × ParsedDoc))
  | [], cache => .ok cache
  | f :: fs, cache =>
    match parse f.data with
    | none => .error (.loadError f.name)
    | some doc => buildDocCache parse fs ((f.id, doc) :: cache)

/-- One loop body of the assembly loops: `docCache[ref.fileId]` followed
by `copyPages(srcDoc, [ref.pageIndex])`.  A cache miss yields
`undefined`, so `copyPages` raises a TypeError; an out-of-range index
is rejected by the codec. -/
def copyPage (cache : List (String × ParsedDoc)) (ref : PDFPageReference) :
    Except JsError Page :=
  match cache.lookup ref.fileId with
  | none => .error (.typeError "Cannot read properties of undefined")
  | some doc =>
    match doc.get? ref.pageIndex with
    | none => .error (.pageRangeError ref.fileId ref.pageIndex)
    | some page => .ok page

/-- The page loop of `mergeAndDownload`: copy each referenced page in
sequence order, call `setRotation(degrees(ref.rotation))` exactly when
`ref.rotation !== 0`, and append it to the merged document. -/
def mergePages (cache : List (String × ParsedDoc)) :
    List PDFPageReference → Except JsError (List OutputPage)
  | [] => .ok []
  | ref :: rest => do
    let page ← copyPage cache ref
    let out ← mergePages cache rest
    pure ({ content := page,
            rotation := if ref.rotation = 0 then none
                        else some ref.rotation } :: out)

/-- `mergeAndDownload` from `services/pdfProcessor.ts`: build the
document cache, assemble the merged document, and deliver it as one
download under `filename`. -/
def mergeAndDownload (parse : Codec) (files : List PDFFile)
    (pageRefs : List PDFPageReference) (filename : String) :
    Except JsError (String × List OutputPage) := do
  let cache ← buildDocCache parse files []
  let out ← mergePages cache pageRefs
  pure (filename, out)

/-- The indexed loop of `splitAllToIndividual`: for slot `i` it creates
a fresh document with just the copied page (no `setRotation` call) and
downloads it as `page_(i+1).pdf`. -/
def splitPages (cache : List (String × ParsedDoc)) :
    Nat → List PDFPageReference →
    Except JsError (List (String × List OutputPage))
  | _, [] => .ok []
  | i, ref :: rest => do
    let page ← copyPage cache ref
    let out ← splitPages cache (i + 1) rest
    pure (("page_" ++ toString (i + 1) ++ ".pdf",
           [{ content := page, rotation := none }]) :: out)

/-- `splitAllToIndividual` from `services/pdfProcessor.ts`. -/
def splitAllToIndividual (parse : Codec) (files : List PDFFile)
    (pageRefs : List PDFPageReference) :
    Except JsError (List (String × List OutputPage)) := do
  let cache ← buildDocCache parse files []
  splitPages cache 0 pageRefs

/-- The text layer of pdf.js used by `extractText`: bytes to the list of
page texts (each page's items already joined), `none` when
`getDocument` rejects. -/
abbrev TextCodec := Bytes → Option (List String)

/-- The page-text accumulation loop of `extractText`: pages `1..maxPages`
with `maxPages = min(pdf.numPages, 5)`, each contributing a header line
and its text. -/
def extractText (pages : List String) : String :=
  (List.range (min pages.length 5)).foldl
    (fun acc i =>
      acc ++ "--- Page " ++ toString (i + 1) ++ " ---\n"
          ++ ((pages.get? i).getD "") ++ "\n") ""

/-- `analyzePdfContent` from `services/geminiService.ts`: builds the
prompt around the extracted text and calls the model; a falsy response
text becomes "No insights available.", and any thrown error is caught
and becomes the connection fallback string.  The network call is the
oracle `gemini` (`none` models a throw). -/
def analyzePdfContent (gemini : String → Option String) (text : String) :
    String :=
  let prompt := "Analyze the following extracted text from a PDF document. "
      ++ text
  match gemini prompt with
  | none => "Failed to get AI insights. Please check your connection."
  | some r => if r = "" then "No insights available." else r

/-- One file of an upload batch as seen by `handleFileUpload`: display
name, byte size, and raw contents. -/
structure Upload where
  name : String
  size : Nat
  data : Bytes
deriving DecidableEq, Repr

/-- The `PDFFile` record pushed onto `newFiles` by the upload loop. -/
def mkUploadFile (fid : String) (u : Upload) (pageCount : Nat) : PDFFile :=
  { id := fid, name := u.name, size := u.size, data := u.data,
    pageCount := pageCount }

/-- The per-page inner loop of `handleFileUpload`: one new
`PDFPageReference` per page index `0..n-1`, each with rotation `0` and
a freshly rendered thumbnail. -/
def mkUploadRefs (mkRefId : String → Nat → String)
    (thumb : Bytes → Nat → String) (fid : String) (data : Bytes)
    (n : Nat) : List PDFPageReference :=
  (List.range n).map (fun i =>
    { id := mkRefId fid i, fileId := fid, pageIndex := i, rotation := 0,
      thumbnailUrl := some (thumb data i) })

/-- The upload loop of `handleFileUpload`: for the `k`-th file of the
batch, generate a fresh file id (`mkFileId k` models the
`Math.random()` token), load it with the codec (a rejection aborts the
whole handler), record the `PDFFile`, and create one `PDFPageReference`
per page with indices `0..pageCount-1`, rotation `0`, and a rendered
thumbnail.  `mkRefId fid i` models the random page-reference id
generated from the file id and page index. -/
def loadUploads (parse : Codec) (mkFileId : Nat → String)
    (mkRefId : String → Nat → String) (thumb : Bytes → Nat → String)
    (k : Nat) :
    List Upload → Except JsError (List PDFFile × List PDFPageReference)
  | [] => .ok ([], [])
  | u :: us =>
    match parse u.data with
    | none => .error (.loadError u.name)
    | some doc =>
      let fid := mkFileId k
      match loadUploads parse mkFileId mkRefId thumb (k + 1) us with
      | .error e => .error e
      | .ok (fs, ps) =>
        .ok (mkUploadFile fid u doc.length :: fs,
             mkUploadRefs mkRefId thumb fid u.data doc.length ++ ps)

/-- `handleFileUpload` from the application component.  It first sets
`isProcessing` to true, then runs the upload loop; on success one final
state update appends the new files and pages and clears the flag.  The
handler has no try/finally, so when the loop rejects the final update
never runs: the state keeps the old `files` and `pages` and
`isProcessing` stays true.  The pair returned is the state after the
handler settles together with the rejection, if any. -/
def handleFileUpload (parse : Codec) (mkFileId : Nat → String)
    (mkRefId : String → Nat → String) (thumb : Bytes → Nat → String)
    (uploads : List Upload) (s : WorkspaceState) :
    WorkspaceState × Option JsError :=
  match loadUploads parse mkFileId mkRefId thumb 0 uploads with
  | .error e => ({ s with isProcessing := true }, some e)
  | .ok (fs, ps) =>
    ({ s with
        files := s.files ++ fs
        pages := s.pages ++ ps
        isProcessing := false }, none)

/-- `removePage` from the application component: filter the sequence by
id; files and the rest of the state are untouched. -/
def removePage (id : String) (s : WorkspaceState) : WorkspaceState :=
  { s with pages := s.pages.filter (fun p => p.id ≠ id) }

/-- The map body of `rotatePage`: the matching reference gets rotation
`(rotation + 90) % 360` (JavaScript remainder, which is truncated
division's remainder, `Int.tmod`); all others are unchanged. -/
def rotateStep (id : String) (p : PDFPageReference) : PDFPageReference :=
  if p.id = id then { p with rotation := ( p.rotation + 90).tmod 360 }
  else p

/-- `rotatePage` from the application component. -/
def rotatePage (id : String) (s : WorkspaceState) : WorkspaceState :=
  { s with pages := s.pages.map (rotateStep id) }

/-- The clamped start index of `Array.prototype.splice`: negative values
count from the end (clamped at 0), values past the end clamp to the
length. -/
def jsSpliceStart (len : Nat) (start : Int) : Nat :=
  if start < 0 then (len + start).toNat else min start.toNat len

/-- `Array.prototype.splice(start, deleteCount, ...items)` on a list:
returns the removed elements and the resulting array. -/
def jsSplice (l : List α) (start : Int) (deleteCount : Nat)
    (items : List α) : List α × List α :=
  let s := jsSpliceStart l.length start
  let dc := min deleteCount (l.length - s)
  ((l.drop s).take dc, l.take s ++ items ++ l.drop (s + dc))

/-- `handleDragOver` from the application component, acting on the
dragged-index component state and the `pages` sequence.  Elements are
`Option PDFPageReference` because `const [movedItem] = splice(...)`
yields `undefined` when the first splice removed nothing, and that
`undefined` is then inserted into the sequence; `none` is that hole.
Returns the new dragged index and the new sequence. -/
def handleDragOver (draggedIdx : Option Int) (idx : Int)
    (pages : List (Option PDFPageReference)) :
    Option Int × List (Option PDFPageReference) :=
  match draggedIdx with
  | none => (none, pages)
  | some d =>
    if d = idx then (some d, pages)
    else
      let rem := jsSplice pages d 1 []
      let movedItem := rem.1.head?.getD none
      (some idx, (jsSplice rem.2 idx 0 [movedItem]).2)

/-- `handleMerge` from the application component: early return when the
sequence is empty; otherwise set `isProcessing`, run the merge inside
try/finally, and clear the flag on the way out whether the merge
succeeded or rejected.  The second component is the merge outcome
(`none` on the early return). -/
def handleMerge (parse : Codec) (s : WorkspaceState) :
    WorkspaceState × Option (Except JsError (String × List OutputPage)) :=
  if s.pages.isEmpty then (s, none)
  else ({ s with isProcessing := false },
        some (mergeAndDownload parse s.files s.pages "exported_document.pdf"))

/-- `handleSplit` from the application component, with the same
try/finally shape as `handleMerge`. -/
def handleSplit (parse : Codec) (s : WorkspaceState) :
    WorkspaceState ×
      Option (Except JsError (List (String × List OutputPage))) :=
  if s.pages.isEmpty then (s, none)
  else ({ s with isProcessing := false },
        some (splitAllToIndividual parse s.files s.pages))

/-- `handleAiAnalyze` from the application component: early return when
no file is loaded; otherwise extract text from the FIRST file only,
feed it to the insight adapter, store the insight, catch any extraction
failure into the fallback insight, and clear `isProcessing` in the
finally block. -/
def handleAiAnalyze (parseText : TextCodec)
    (gemini : String → Option String) (s : WorkspaceState) :
    WorkspaceState :=
  match s.files with
  | [] => s
  | f :: _ =>
    match parseText f.data with
    | none =>
      { s with
          aiInsights := some "Error generating insights."
          isProcessing := false }
    | some pages =>
      { s with
        aiInsights := some (analyzePdfContent gemini (extractText pages)),
        isProcessing := false }

/-- `clearWorkspace` from the application component. -/
def clearWorkspace : WorkspaceState :=
  { files := [], pages := [], isProcessing := false, aiInsights := none }

/-! Concrete instances of the external collaborators and a small sample
workspace, used to evaluate the development on closed inputs. -/

/-- A concrete codec: a buffer parses when it starts with byte 37 (the
`%` of the `%PDF` magic); its remaining bytes are its pages. -/
def parseEx : Codec := fun b =>
  match b with
  | 37 :: rest => some rest
  | _ => none

/-- A concrete text layer: same validity test, one text per page. -/
def parseTextEx : TextCodec := fun b =>
  match b with
  | 37 :: rest => some (rest.map toString)
  | _ => none

/-- A concrete insight oracle. -/
def geminiEx : String → Option String := fun _ => some "ok"

/-- Concrete id generation for the upload batch. -/
def mkFileIdEx : Nat → String := fun k => "f" ++ toString k

/-- Concrete page-reference id generation. -/
def mkRefIdEx : String → Nat → String := fun fid i => fid ++ "-" ++ toString i

/-- Concrete thumbnail oracle. -/
def thumbEx : Bytes → Nat → String := fun _ i => "t" ++ toString i

/-- A sample page reference into source `a`, page 0. -/
def pageA : PDFPageReference :=
  { id := "a-0", fileId := "a", pageIndex := 0, rotation := 0,
    thumbnailUrl := none }

/-- A sample page reference into source `a`, page 1, rotated 90. -/
def pageB : PDFPageReference :=
  { id := "a-1", fileId := "a", pageIndex := 1, rotation := 90,
    thumbnailUrl := none }

/-- A sample source document with two pages. -/
def fileA : PDFFile :=
  { id := "a", name := "a.pdf", size := 3, data := [37, 5, 6],
    pageCount := 2 }

/-- A sample workspace holding `fileA` and both of its pages. -/
def wsA : WorkspaceState :=
  { files := [fileA], pages := [pageA, pageB], isProcessing := false,
    aiInsights := none }

/-! Theorems. -/

/-- C9: `removePage` is idempotent, calling it with an id absent from
the sequence is a no-op rather than an error, and it never changes the
set of source documents. -/
theorem removePage_idempotent (s : WorkspaceState) (id : String) :
    removePage id (removePage id s) = removePage id s ∧
    ((∀ p ∈ s.pages, p.id ≠ id) → removePage id s = s) ∧
    (removePage id s).files = s.files := by
  refine ⟨?_, ?_, rfl⟩
  · simp [removePage, List.filter_filter]
  · intro h
    obtain ⟨files, pages, ip, ai⟩ := s
    simp only [removePage, WorkspaceState.mk.injEq, true_and, and_true]
    exact List.filter_eq_self.mpr (fun p hp => by simpa using h p hp)

theorem removePage_idempotent_witness :
    (∀ p ∈ wsA.pages, p.id ≠ "zz") ∧ removePage "zz" wsA = wsA :=
  ⟨by decide, (removePage_idempotent wsA "zz").2.1 (by decide)⟩

/-- Rotations the data model allows: the four right-angle values. -/
abbrev rotOk (r : Int) : Prop := r = 0 ∨ r = 90 ∨ r = 180 ∨ r = 270

theorem rotateStep_formula (id : String) (p : PDFPageReference)
    (hid : p.id = id) :
    PDFPageReference.rotation (rotateStep id p) = ( p.rotation + 90).tmod 360 := by
  simp [rotateStep, hid]

theorem rotateStep_four (id : String) (p : PDFPageReference)
    (h : rotOk p.rotation) :
    rotateStep id (rotateStep id (rotateStep id (rotateStep id p))) = p := by
  obtain ⟨pid, fid, pidx, rot, th⟩ := p
  by_cases hid : pid = id
  · rcases h with h | h | h | h <;> simp_all [rotateStep] <;> decide
  · simp [rotateStep, hid]

theorem map_rotateStep_four (id : String) :
    ∀ l : List PDFPageReference, (∀ p ∈ l, rotOk p.rotation) →
      ((((l.map (rotateStep id)).map (rotateStep id)).map
          (rotateStep id)).map (rotateStep id)) = l := by
  intro l
  induction l with
  | nil => intro _; rfl
  | cons p ps ih =>
    intro hl
    simp only [List.map_cons, List.cons.injEq]
    exact ⟨rotateStep_four id p (hl p (by simp)),
           ih (fun q hq => hl q (by simp [hq]))⟩

/-- C8: positionally, `rotatePage` replaces the matching reference's
rotation by `(rotation + 90) % 360` and keeps every other reference
unchanged; the set {0, 90, 180, 270} of rotations is preserved; and
four applications with the same id restore the state exactly. -/
theorem rotatePage_mod_cycle (s : WorkspaceState) (id : String) :
    (∀ (i : Nat) (p : PDFPageReference), s.pages[i]? = some p →
      (rotatePage id s).pages[i]? = some (rotateStep id p) ∧
      PDFPageReference.rotation (rotateStep id p) =
        (if p.id = id then ( p.rotation + 90).tmod 360 else p.rotation)) ∧
    ((∀ p ∈ s.pages, rotOk p.rotation) →
      ∀ q ∈ (rotatePage id s).pages, rotOk q.rotation) ∧
    ((∀ p ∈ s.pages, rotOk p.rotation) →
      rotatePage id (rotatePage id (rotatePage id (rotatePage id s))) = s) := by
  refine ⟨?_, ?_, ?_⟩
  · intro i p hp
    constructor
    · simp [rotatePage, List.getElem?_map, hp]
    · by_cases hid : p.id = id <;> simp [rotateStep, hid]
  · intro hs q hq
    simp only [rotatePage, List.mem_map] at hq
    obtain ⟨p, hp, rfl⟩ := hq
    by_cases hid : p.id = id
    · rw [rotateStep_formula id p hid]
      rcases hs p hp with h | h | h | h <;> rw [h] <;> decide
    · simpa [rotateStep, hid] using hs p hp
  · intro hs
    obtain ⟨files, pages, ip, ai⟩ := s
    simp only [rotatePage, WorkspaceState.mk.injEq, true_and, and_true]
    exact map_rotateStep_four id pages hs

theorem rotatePage_mod_cycle_witness :
    (∀ p ∈ wsA.pages, rotOk p.rotation) ∧
    rotatePage "a-0" (rotatePage "a-0" (rotatePage "a-0"
      (rotatePage "a-0" wsA))) = wsA :=
  ⟨by decide, (rotatePage_mod_cycle wsA "a-0").2.2 (by decide)⟩

theorem copyPage_ok (cache : List (String × ParsedDoc))
    (ref : PDFPageReference) (doc : ParsedDoc)
    (hdoc : cache.lookup ref.fileId = some doc)
    (hidx : ref.pageIndex < doc.length) :
    ∃ page, doc[ref.pageIndex]? = some page ∧
      copyPage cache ref = .ok page := by
  refine ⟨doc[ref.pageIndex], List.getElem?_eq_getElem hidx, ?_⟩
  simp [copyPage, hdoc, List.get?_eq_getElem?, List.getElem?_eq_getElem hidx]

theorem mergePages_ok (cache : List (String × ParsedDoc)) :
    ∀ refs : List PDFPageReference,
    (∀ ref ∈ refs, ∃ doc, cache.lookup ref.fileId = some doc ∧
        ref.pageIndex < doc.length) →
    ∃ out, mergePages cache refs = .ok out ∧ out.length = refs.length ∧
      ∀ (i : Nat) (ref : PDFPageReference), refs[i]? = some ref →
        ∃ doc page, cache.lookup ref.fileId = some doc ∧
          doc[ref.pageIndex]? = some page ∧
          out[i]? = some { content := page, rotation := if ref.rotation = 0 then none else some ref.rotation } := by
  intro refs
  induction refs with
  | nil => exact fun _ => ⟨[], rfl, rfl, by intro i ref h; simp at h⟩
  | cons ref rest ih =>
    intro h
    obtain ⟨doc, hdoc, hidx⟩ := h ref (by simp)
    obtain ⟨page, hpage, hcopy⟩ := copyPage_ok cache ref doc hdoc hidx
    obtain ⟨out, hout, hlen, hidxs⟩ := ih (fun r hr => h r (by simp [hr]))
    refine ⟨{ content := page, rotation := if ref.rotation = 0 then none else some ref.rotation } :: out, ?_, by simp [hlen], ?_⟩
    · simp only [mergePages, hcopy, hout]
      rfl
    · intro i r hr
      cases i with
      | zero =>
        simp only [List.getElem?_cons_zero, Option.some.injEq] at hr
        subst hr
        exact ⟨doc, page, hdoc, hpage, by simp⟩
      | succ i =>
        simp only [List.getElem?_cons_succ] at hr ⊢
        exact hidxs i r hr

/-- C1: when every source file loads and every reference of the sequence
resolves in the resulting document cache, merge succeeds and produces
exactly one output page per reference, in sequence order; output slot
`i` carries the source page referenced by sequence slot `i`, with the
slot's stored rotation applied to it exactly when it is non-zero. -/
theorem merge_matches_sequence (parse : Codec) (files : List PDFFile)
    (refs : List PDFPageReference) (fname : String)
    (cache : List (String × ParsedDoc))
    (hc : buildDocCache parse files [] = .ok cache)
    (hres : ∀ ref ∈ refs, ∃ doc, cache.lookup ref.fileId = some doc ∧
        ref.pageIndex < doc.length) :
    ∃ out, mergeAndDownload parse files refs fname = .ok (fname, out) ∧
      out.length = refs.length ∧
      ∀ (i : Nat) (ref : PDFPageReference), refs[i]? = some ref →
        ∃ doc page, cache.lookup ref.fileId = some doc ∧
          doc[ref.pageIndex]? = some page ∧
          out[i]? = some { content := page, rotation := if ref.rotation = 0 then none else some ref.rotation } := by
  obtain ⟨out, hout, hlen, hidx⟩ := mergePages_ok cache refs hres
  refine ⟨out, ?_, hlen, hidx⟩
  simp only [mergeAndDownload, hc]
  show Prod.mk fname <$> mergePages cache refs = Except.ok (fname, out)
  rw [hout]
  rfl

theorem merge_matches_sequence_witness :
    buildDocCache parseEx [fileA] [] = .ok [("a", [5, 6])] ∧
    (∀ ref ∈ [pageB, pageA], ∃ doc,
        List.lookup ref.fileId [("a", [5, 6])] = some doc ∧
        ref.pageIndex < doc.length) ∧
    ∃ out, mergeAndDownload parseEx [fileA] [pageB, pageA]
        "merged_document.pdf" = .ok ("merged_document.pdf", out) ∧
      out.length = [pageB, pageA].length ∧
      ∀ (i : Nat) (ref : PDFPageReference), [pageB, pageA][i]? = some ref →
        ∃ doc page, List.lookup ref.fileId [("a", [5, 6])] = some doc ∧
          doc[ref.pageIndex]? = some page ∧
          out[i]? = some { content := page, rotation := if ref.rotation = 0 then none else some ref.rotation } :=
  have hres : ∀ ref ∈ [pageB, pageA], ∃ doc,
      List.lookup ref.fileId [("a", [5, 6])] = some doc ∧
      ref.pageIndex < doc.length := by
    intro ref hr
    simp only [List.mem_cons, List.not_mem_nil, or_false] at hr
    rcases hr with hr | hr <;> subst hr <;> exact ⟨[5, 6], rfl, by decide⟩
  ⟨rfl, hres, merge_matches_sequence parseEx [fileA] [pageB, pageA]
    "merged_document.pdf" [("a", [5, 6])] rfl hres⟩

theorem splitPages_ok (cache : List (String × ParsedDoc)) :
    ∀ (k : Nat) (refs : List PDFPageReference),
    (∀ ref ∈ refs, ∃ doc, cache.lookup ref.fileId = some doc ∧
        ref.pageIndex < doc.length) →
    ∃ outs, splitPages cache k refs = .ok outs ∧
      outs.length = refs.length ∧
      ∀ (i : Nat) (ref : PDFPageReference), refs[i]? = some ref →
        ∃ doc page, cache.lookup ref.fileId = some doc ∧
          doc[ref.pageIndex]? = some page ∧
          outs[i]? = some ("page_" ++ toString (k + i + 1) ++ ".pdf",
            [{ content := page, rotation := none }]) := by
  intro k refs
  induction refs generalizing k with
  | nil => exact fun _ => ⟨[], rfl, rfl, by intro i ref h; simp at h⟩
  | cons ref rest ih =>
    intro h
    obtain ⟨doc, hdoc, hidx⟩ := h ref (by simp)
    obtain ⟨page, hpage, hcopy⟩ := copyPage_ok cache ref doc hdoc hidx
    obtain ⟨outs, houts, hlen, hidxs⟩ := ih (k + 1) (fun r hr => h r (by simp [hr]))
    refine ⟨("page_" ++ toString (k + 1) ++ ".pdf",
      [{ content := page, rotation := none }]) :: outs, ?_, by simp [hlen], ?_⟩
    · simp only [splitPages, hcopy, houts]
      rfl
    · intro i r hr
      cases i with
      | zero =>
        simp only [List.getElem?_cons_zero, Option.some.injEq] at hr
        subst hr
        exact ⟨doc, page, hdoc, hpage, by simp⟩
      | succ i =>
        simp only [List.getElem?_cons_succ] at hr ⊢
        obtain ⟨d, pg, hd, hpg, ho⟩ := hidxs i r hr
        have e : k + 1 + i + 1 = k + (i + 1) + 1 := by omega
        rw [e] at ho
        exact ⟨d, pg, hd, hpg, ho⟩

/-- C2: under the same resolution hypotheses, `splitAll` produces
exactly one output per page reference, in sequence order; output `i` is
named `page_(i+1).pdf` (1-based) and is a single-page document holding
the referenced source page with no rotation applied to it. -/
theorem splitAll_matches_sequence (parse : Codec) (files : List PDFFile)
    (refs : List PDFPageReference)
    (cache : List (String × ParsedDoc))
    (hc : buildDocCache parse files [] = .ok cache)
    (hres : ∀ ref ∈ refs, ∃ doc, cache.lookup ref.fileId = some doc ∧
        ref.pageIndex < doc.length) :
    ∃ outs, splitAllToIndividual parse files refs = .ok outs ∧
      outs.length = refs.length ∧
      ∀ (i : Nat) (ref : PDFPageReference), refs[i]? = some ref →
        ∃ doc page, cache.lookup ref.fileId = some doc ∧
          doc[ref.pageIndex]? = some page ∧
          outs[i]? = some ("page_" ++ toString (i + 1) ++ ".pdf",
            [{ content := page, rotation := none }]) := by
  obtain ⟨outs, houts, hlen, hidx⟩ := splitPages_ok cache 0 refs hres
  refine ⟨outs, ?_, hlen, ?_⟩
  · simp only [splitAllToIndividual, hc]
    exact houts
  intro i ref hr
  obtain ⟨d, pg, hd, hpg, ho⟩ := hidx i ref hr
  have e : (0 : Nat) + i + 1 = i + 1 := by omega
  rw [e] at ho
  exact ⟨d, pg, hd, hpg, ho⟩

theorem splitAll_matches_sequence_witness :
    buildDocCache parseEx [fileA] [] = .ok [("a", [5, 6])] ∧
    (∀ ref ∈ [pageB, pageA], ∃ doc,
        List.lookup ref.fileId [("a", [5, 6])] = some doc ∧
        ref.pageIndex < doc.length) ∧
    ∃ outs, splitAllToIndividual parseEx [fileA] [pageB, pageA] = .ok outs ∧
      outs.length = [pageB, pageA].length ∧
      ∀ (i : Nat) (ref : PDFPageReference), [pageB, pageA][i]? = some ref →
        ∃ doc page, List.lookup ref.fileId [("a", [5, 6])] = some doc ∧
          doc[ref.pageIndex]? = some page ∧
          outs[i]? = some ("page_" ++ toString (i + 1) ++ ".pdf",
            [{ content := page, rotation := none }]) :=
  have hres : ∀ ref ∈ [pageB, pageA], ∃ doc,
      List.lookup ref.fileId [("a", [5, 6])] = some doc ∧
      ref.pageIndex < doc.length := by
    intro ref hr
    simp only [List.mem_cons, List.not_mem_nil, or_false] at hr
    rcases hr with hr | hr <;> subst hr <;> exact ⟨[5, 6], rfl, by decide⟩
  ⟨rfl, hres, splitAll_matches_sequence parseEx [fileA] [pageB, pageA]
    [("a", [5, 6])] rfl hres⟩


theorem mkUploadRefs_spec (mkRefId : String → Nat → String)
    (thumb : Bytes → Nat → String) (fid : String) (data : Bytes) (n : Nat) :
    (mkUploadRefs mkRefId thumb fid data n).length = n ∧
    ∀ (i : Nat) (r : PDFPageReference),
      (mkUploadRefs mkRefId thumb fid data n)[i]? = some r →
      r.id = mkRefId fid i ∧ r.fileId = fid ∧ r.pageIndex = i ∧
      r.rotation = 0 := by
  refine ⟨by simp [mkUploadRefs], ?_⟩
  intro i r hr
  by_cases hi : i < n
  · simp only [mkUploadRefs, List.getElem?_map, List.getElem?_range hi,
      Option.map_some', Option.some.injEq] at hr
    subst hr
    exact ⟨rfl, rfl, rfl, rfl⟩
  · rw [mkUploadRefs, List.getElem?_eq_none (by simp; omega)] at hr
    cases hr

theorem loadUploads_ok (parse : Codec) (mkFileId : Nat → String)
    (mkRefId : String → Nat → String) (thumb : Bytes → Nat → String) :
    ∀ (k : Nat) (uploads : List Upload),
    (∀ u ∈ uploads, (parse u.data).isSome) →
    ∃ (fs : List PDFFile) (ps : List PDFPageReference)
      (blocks : List (List PDFPageReference)),
      loadUploads parse mkFileId mkRefId thumb k uploads = .ok (fs, ps) ∧
      ps = blocks.flatten ∧
      fs.length = uploads.length ∧ blocks.length = uploads.length ∧
      ∀ (j : Nat) (u : Upload), uploads[j]? = some u →
        ∃ doc, parse u.data = some doc ∧
          fs[j]? = some (mkUploadFile (mkFileId (k + j)) u doc.length) ∧
          blocks[j]? = some (mkUploadRefs mkRefId thumb (mkFileId (k + j))
            u.data doc.length) := by
  intro k uploads
  induction uploads generalizing k with
  | nil =>
    exact fun _ => ⟨[], [], [], rfl, rfl, rfl, rfl,
      by intro j u hu; simp at hu⟩
  | cons u us ih =>
    intro h
    obtain ⟨doc, hdoc⟩ := Option.isSome_iff_exists.mp (h u (by simp))
    obtain ⟨fs, ps, blocks, hload, hps, hfl, hbl, hj⟩ :=
      ih (k + 1) (fun v hv => h v (by simp [hv]))
    refine ⟨mkUploadFile (mkFileId k) u doc.length :: fs,
      mkUploadRefs mkRefId thumb (mkFileId k) u.data doc.length ++ ps,
      mkUploadRefs mkRefId thumb (mkFileId k) u.data doc.length :: blocks,
      ?_, by simp [hps], by simp [hfl], by simp [hbl], ?_⟩
    · simp only [loadUploads, hdoc, hload]
    · intro j v hv
      cases j with
      | zero =>
        simp only [List.getElem?_cons_zero, Option.some.injEq] at hv
        subst hv
        exact ⟨doc, hdoc, by simp, by simp⟩
      | succ j =>
        simp only [List.getElem?_cons_succ] at hv ⊢
        obtain ⟨d, hd, hf, hblk⟩ := hj j v hv
        have e : k + 1 + j = k + (j + 1) := by omega
        rw [e] at hf hblk
        exact ⟨d, hd, hf, hblk⟩

/-- C3: a batch of successful uploads appends, to the end of the
existing sequence, the concatenation in upload order of one block per
uploaded file; block `j` holds one reference per page of source `j` in
ascending page-index order, each created with rotation 0; the registry
gains the corresponding source documents, also appended in order. -/
theorem upload_appends_in_order (parse : Codec) (mkFileId : Nat → String)
    (mkRefId : String → Nat → String) (thumb : Bytes → Nat → String)
    (uploads : List Upload) (s : WorkspaceState)
    (h : ∀ u ∈ uploads, (parse u.data).isSome) :
    ∃ (fs : List PDFFile) (blocks : List (List PDFPageReference)),
      handleFileUpload parse mkFileId mkRefId thumb uploads s =
        ({ s with files := s.files ++ fs, pages := s.pages ++ blocks.flatten, isProcessing := false }, none) ∧
      fs.length = uploads.length ∧ blocks.length = uploads.length ∧
      ∀ (j : Nat) (u : Upload), uploads[j]? = some u →
        ∃ doc, parse u.data = some doc ∧
          (∃ f, fs[j]? = some f ∧ f.id = mkFileId j ∧ f.name = u.name ∧
            f.size = u.size ∧ f.data = u.data ∧
            f.pageCount = doc.length) ∧
          ∃ blk, blocks[j]? = some blk ∧ blk.length = doc.length ∧
            ∀ (i : Nat) (r : PDFPageReference), blk[i]? = some r →
              r.id = mkRefId (mkFileId j) i ∧ r.fileId = mkFileId j ∧
              r.pageIndex = i ∧ r.rotation = 0 := by
  obtain ⟨fs, ps, blocks, hload, hps, hfl, hbl, hj⟩ :=
    loadUploads_ok parse mkFileId mkRefId thumb 0 uploads h
  refine ⟨fs, blocks, ?_, hfl, hbl, ?_⟩
  · simp only [handleFileUpload, hload]
    rw [hps]
  · intro j u hu
    obtain ⟨doc, hdoc, hf, hblk⟩ := hj j u hu
    simp only [Nat.zero_add] at hf hblk
    exact ⟨doc, hdoc, ⟨_, hf, rfl, rfl, rfl, rfl, rfl⟩, _, hblk,
      (mkUploadRefs_spec mkRefId thumb (mkFileId j) u.data doc.length).1,
      fun i r hr =>
        (mkUploadRefs_spec mkRefId thumb (mkFileId j) u.data doc.length).2
          i r hr⟩

/-- A sample valid upload (parses under `parseEx`, two pages). -/
def up1 : Upload := { name := "a.pdf", size := 3, data := [37, 5, 6] }

/-- A sample invalid upload (no leading `%` byte). -/
def upBad : Upload := { name := "bad.pdf", size := 2, data := [1, 2] }

theorem upload_appends_in_order_witness :
    (∀ u ∈ [up1], (parseEx u.data).isSome) ∧
    ∃ (fs : List PDFFile) (blocks : List (List PDFPageReference)),
      handleFileUpload parseEx mkFileIdEx mkRefIdEx thumbEx [up1]
          clearWorkspace =
        ({ clearWorkspace with files := clearWorkspace.files ++ fs, pages := clearWorkspace.pages ++ blocks.flatten, isProcessing := false }, none) ∧
      fs.length = [up1].length ∧ blocks.length = [up1].length ∧
      ∀ (j : Nat) (u : Upload), [up1][j]? = some u →
        ∃ doc, parseEx u.data = some doc ∧
          (∃ f, fs[j]? = some f ∧ f.id = mkFileIdEx j ∧ f.name = u.name ∧
            f.size = u.size ∧ f.data = u.data ∧
            f.pageCount = doc.length) ∧
          ∃ blk, blocks[j]? = some blk ∧ blk.length = doc.length ∧
            ∀ (i : Nat) (r : PDFPageReference), blk[i]? = some r →
              r.id = mkRefIdEx (mkFileIdEx j) i ∧ r.fileId = mkFileIdEx j ∧
              r.pageIndex = i ∧ r.rotation = 0 :=
  ⟨by decide, upload_appends_in_order parseEx mkFileIdEx mkRefIdEx thumbEx
    [up1] clearWorkspace (by decide)⟩

theorem loadUploads_err (parse : Codec) (mkFileId : Nat → String)
    (mkRefId : String → Nat → String) (thumb : Bytes → Nat → String) :
    ∀ (k : Nat) (uploads : List Upload),
    (∃ u ∈ uploads, parse u.data = none) →
    ∃ nm, loadUploads parse mkFileId mkRefId thumb k uploads =
      .error (.loadError nm) := by
  intro k uploads
  induction uploads generalizing k with
  | nil =>
    rintro ⟨u, hu, _⟩
    exact absurd hu (List.not_mem_nil u)
  | cons u us ih =>
    rintro ⟨v, hv, hvp⟩
    rcases List.mem_cons.mp hv with rfl | hv
    · exact ⟨v.name, by simp [loadUploads, hvp]⟩
    · cases hp : parse u.data with
      | none => exact ⟨u.name, by simp [loadUploads, hp]⟩
      | some doc =>
        obtain ⟨nm, hnm⟩ := ih (k + 1) ⟨v, hv, hvp⟩
        exact ⟨nm, by simp [loadUploads, hp, hnm]⟩

/-- C4: an upload batch containing a buffer the codec cannot parse
rejects with a LoadError, and the page-reference sequence and the
source registry are exactly as they were before the call. -/
theorem upload_invalid_preserves_state (parse : Codec)
    (mkFileId : Nat → String) (mkRefId : String → Nat → String)
    (thumb : Bytes → Nat → String) (uploads : List Upload)
    (s : WorkspaceState)
    (h : ∃ u ∈ uploads, parse u.data = none) :
    ∃ nm, handleFileUpload parse mkFileId mkRefId thumb uploads s =
        ({ s with isProcessing := true }, some (.loadError nm)) ∧
      (handleFileUpload parse mkFileId mkRefId thumb uploads s).1.files =
        s.files ∧
      (handleFileUpload parse mkFileId mkRefId thumb uploads s).1.pages =
        s.pages := by
  obtain ⟨nm, hnm⟩ := loadUploads_err parse mkFileId mkRefId thumb 0 uploads h
  exact ⟨nm, by simp [handleFileUpload, hnm],
    by simp [handleFileUpload, hnm], by simp [handleFileUpload, hnm]⟩

theorem upload_invalid_preserves_state_witness :
    (∃ u ∈ [up1, upBad], parseEx u.data = none) ∧
    ∃ nm, handleFileUpload parseEx mkFileIdEx mkRefIdEx thumbEx
          [up1, upBad] wsA =
        ({ wsA with isProcessing := true }, some (.loadError nm)) ∧
      (handleFileUpload parseEx mkFileIdEx mkRefIdEx thumbEx
        [up1, upBad] wsA).1.files = wsA.files ∧
      (handleFileUpload parseEx mkFileIdEx mkRefIdEx thumbEx
        [up1, upBad] wsA).1.pages = wsA.pages :=
  ⟨by decide, upload_invalid_preserves_state parseEx mkFileIdEx mkRefIdEx
    thumbEx [up1, upBad] wsA (by decide)⟩

theorem copyPage_error_unwrapped (cache : List (String × ParsedDoc))
    (ref : PDFPageReference) (e : JsError)
    (he : copyPage cache ref = .error e) : e.isAssemblyWrapped = false := by
  unfold copyPage at he
  split at he
  · simp only [Except.error.injEq] at he
    subst he; rfl
  · split at he
    · simp only [Except.error.injEq] at he
      subst he; rfl
    · exact Except.noConfusion he

theorem copyPage_ok_inv (cache : List (String × ParsedDoc))
    (ref : PDFPageReference) (page : Page)
    (h : copyPage cache ref = .ok page) :
    ∃ doc, cache.lookup ref.fileId = some doc ∧
      doc.get? ref.pageIndex = some page := by
  unfold copyPage at h
  split at h
  · exact Except.noConfusion h
  · rename_i doc hdoc
    split at h
    · exact Except.noConfusion h
    · rename_i pg hg
      injection h with h
      subst h
      exact ⟨doc, hdoc, hg⟩

theorem mergePages_error_unwrapped (cache : List (String × ParsedDoc)) :
    ∀ (refs : List PDFPageReference) (e : JsError),
    mergePages cache refs = .error e → e.isAssemblyWrapped = false := by
  intro refs
  induction refs with
  | nil => intro e he; exact Except.noConfusion he
  | cons ref rest ih =>
    intro e he
    rw [mergePages] at he
    cases hc : copyPage cache ref with
    | error e1 =>
      rw [hc] at he
      have h2 : (Except.error e1 : Except JsError (List OutputPage)) =
          .error e := he
      simp only [Except.error.injEq] at h2
      subst h2
      exact copyPage_error_unwrapped cache ref _ hc
    | ok page =>
      rw [hc] at he
      cases hm : mergePages cache rest with
      | error e2 =>
        rw [hm] at he
        have h2 : (Except.error e2 : Except JsError (List OutputPage)) =
            .error e := he
        simp only [Except.error.injEq] at h2
        subst h2
        exact ih _ hm
      | ok out =>
        rw [hm] at he
        exact Except.noConfusion he

theorem buildDocCache_error_unwrapped (parse : Codec) :
    ∀ (files : List PDFFile) (acc : List (String × ParsedDoc)) (e : JsError),
    buildDocCache parse files acc = .error e →
    e.isAssemblyWrapped = false := by
  intro files
  induction files with
  | nil => intro acc e he; exact Except.noConfusion he
  | cons f fs ih =>
    intro acc e he
    rw [buildDocCache] at he
    cases hp : parse f.data with
    | none =>
      rw [hp] at he
      simp only [Except.error.injEq] at he
      subst he; rfl
    | some doc =>
      rw [hp] at he
      exact ih _ _ he

theorem mergePages_err (cache : List (String × ParsedDoc)) :
    ∀ refs : List PDFPageReference,
    (∃ ref ∈ refs, cache.lookup ref.fileId = none ∨
      ∃ doc, cache.lookup ref.fileId = some doc ∧
        doc.length ≤ ref.pageIndex) →
    ∃ e, mergePages cache refs = .error e := by
  intro refs
  induction refs with
  | nil =>
    rintro ⟨ref, hr, _⟩
    exact absurd hr (List.not_mem_nil ref)
  | cons ref rest ih =>
    rintro ⟨r, hr, hbad⟩
    cases hc : copyPage cache ref with
    | error e1 =>
      refine ⟨e1, ?_⟩
      rw [mergePages, hc]
      rfl
    | ok page =>
      rcases List.mem_cons.mp hr with hrr | hr
      · exfalso
        subst hrr
        obtain ⟨doc2, hdoc2, hg⟩ := copyPage_ok_inv cache r page hc
        rcases hbad with hnone | ⟨doc, hdoc, hlen⟩
        · rw [hnone] at hdoc2
          exact Option.noConfusion hdoc2
        · rw [hdoc] at hdoc2
          injection hdoc2 with hdd
          subst hdd
          rw [List.get?_eq_getElem?, List.getElem?_eq_none hlen] at hg
          exact Option.noConfusion hg
      · obtain ⟨e2, he2⟩ := ih ⟨r, hr, hbad⟩
        refine ⟨e2, ?_⟩
        rw [mergePages, hc, he2]
        rfl

/-- C6 (amended): when all files load but the sequence holds a
reference whose source id misses the cache or whose page index is out
of range, merge fails by propagating the underlying error — the
TypeError raised on the `undefined` cache miss, or the codec's
range error — rather than silently skipping the page, and the error is
not wrapped in an `AssemblyError`. -/
theorem merge_fails_unwrapped (parse : Codec) (files : List PDFFile)
    (refs : List PDFPageReference) (fname : String)
    (cache : List (String × ParsedDoc))
    (hc : buildDocCache parse files [] = .ok cache)
    (hbad : ∃ ref ∈ refs, cache.lookup ref.fileId = none ∨
      ∃ doc, cache.lookup ref.fileId = some doc ∧
        doc.length ≤ ref.pageIndex) :
    ∃ e, mergeAndDownload parse files refs fname = .error e ∧
      e.isAssemblyWrapped = false := by
  obtain ⟨e, he⟩ := mergePages_err cache refs hbad
  refine ⟨e, ?_, mergePages_error_unwrapped cache refs e he⟩
  simp only [mergeAndDownload, hc]
  show Prod.mk fname <$> mergePages cache refs = Except.error e
  rw [he]
  rfl

/-- C6 counterexample: with an empty registry and a single reference to
the absent source id `a`, merge terminates with the raw TypeError of
the `undefined` lookup — a plain error, not an `AssemblyError` wrapping
an underlying cause. -/
theorem merge_error_unwrapped_cex :
    mergeAndDownload parseEx [] [pageA] "exported_document.pdf" =
      .error (.typeError "Cannot read properties of undefined") ∧
    (JsError.typeError
      "Cannot read properties of undefined").isAssemblyWrapped = false :=
  ⟨rfl, rfl⟩

theorem merge_fails_unwrapped_witness :
    buildDocCache parseEx [] [] = .ok [] ∧
    (∃ ref ∈ [pageA],
      List.lookup ref.fileId ([] : List (String × ParsedDoc)) = none ∨
      ∃ doc, List.lookup ref.fileId ([] : List (String × ParsedDoc)) =
          some doc ∧ doc.length ≤ ref.pageIndex) ∧
    ∃ e, mergeAndDownload parseEx [] [pageA] "exported_document.pdf" =
        .error e ∧ e.isAssemblyWrapped = false :=
  ⟨rfl, ⟨pageA, by simp, Or.inl rfl⟩,
   merge_fails_unwrapped parseEx [] [pageA] "exported_document.pdf" []
     rfl ⟨pageA, by simp, Or.inl rfl⟩⟩

theorem jsSpliceStart_le (len : Nat) (start : Int) :
    jsSpliceStart len start ≤ len := by
  rw [jsSpliceStart]
  split
  · omega
  · exact Nat.min_le_right _ _

theorem jsSplice_snd_length {α : Type} (l : List α) (start : Int)
    (dc : Nat) (items : List α) :
    (jsSplice l start dc items).2.length =
      l.length + items.length -
        min dc (l.length - jsSpliceStart l.length start) := by
  have hs := jsSpliceStart_le l.length start
  simp only [jsSplice, List.length_append, List.length_take,
    List.length_drop]
  omega

/-- C7 counterexample: out-of-range reorder indices do not fail with a
RangeError — the drag handler returns normally.  With fromIndex 5 on a
two-element sequence it inserts an `undefined` hole at the front; with
toIndex 5 it silently clamps and moves the dragged page to the end. -/
theorem reorder_no_rangeError_cex :
    handleDragOver (some 5) 0 [some pageA, some pageB] =
      (some 0, [none, some pageA, some pageB]) ∧
    handleDragOver (some 0) 5 [some pageA, some pageB] =
      (some 5, [some pageB, some pageA]) :=
  ⟨rfl, rfl⟩

/-- C7 (amended): the reorder handler never fails with a RangeError.
With no active drag, or when fromIndex equals toIndex, the sequence is
unchanged; when fromIndex is at or beyond the end of the sequence the
handler removes nothing and inserts an `undefined` hole at the clamped
toIndex; in every remaining case it still returns normally, with the
sequence's length preserved or grown by one. -/
theorem reorder_clamps (d idx : Int)
    (pages : List (Option PDFPageReference)) :
    handleDragOver none idx pages = (none, pages) ∧
    (d = idx → handleDragOver (some d) idx pages = (some d, pages)) ∧
    (d ≠ idx → (pages.length : Int) ≤ d →
      handleDragOver (some d) idx pages =
        (some idx, pages.take (jsSpliceStart pages.length idx) ++
          none :: pages.drop (jsSpliceStart pages.length idx))) ∧
    (d ≠ idx →
      ∃ l, handleDragOver (some d) idx pages = (some idx, l) ∧
        (l.length = pages.length ∨ l.length = pages.length + 1)) := by
  refine ⟨rfl, ?_, ?_, ?_⟩
  · intro h
    simp [handleDragOver, h]
  · intro hne hlen
    have hd0 : ¬ d < 0 := by omega
    have hs : jsSpliceStart pages.length d = pages.length := by
      rw [jsSpliceStart, if_neg hd0]
      have h1 : pages.length ≤ d.toNat := by omega
      exact Nat.min_eq_right h1
    have hsplice1 :
        jsSplice pages d 1 ([] : List (Option PDFPageReference)) =
          ([], pages) := by
      simp [jsSplice, hs]
    simp only [handleDragOver, if_neg hne, hsplice1]
    simp only [jsSplice, List.head?_nil, Option.getD_none, Nat.add_zero,
      List.nil_append, Nat.zero_min]
    simp
  · intro hne
    simp only [handleDragOver, if_neg hne]
    refine ⟨_, rfl, ?_⟩
    rw [jsSplice_snd_length, jsSplice_snd_length]
    have h1 := jsSpliceStart_le pages.length d
    have h2 := jsSpliceStart_le
      (jsSplice pages d 1 ([] : List (Option PDFPageReference))).2.length idx
    simp only [List.length_cons, List.length_nil]
    omega

theorem reorder_clamps_witness :
    (7 : Int) ≠ 1 ∧
    ((List.length [some pageA, some pageB] : Int) ≤ 7) ∧
    handleDragOver (some 7) 1 [some pageA, some pageB] =
      (some 1, [some pageA, none, some pageB]) :=
  ⟨by decide, by decide, by
    have h := (reorder_clamps 7 1 [some pageA, some pageB]).2.2.1
      (by decide) (by decide)
    exact h⟩

/-- C5 (code bug): merge, split, analyze, and a successful upload all
terminate with `isProcessing` back at false, but `handleFileUpload` has
no try/finally, so an upload batch with an invalid file terminates with
`isProcessing` still true — the workspace stays "processing" forever. -/
theorem isProcessing_stuck_after_failed_upload :
    (handleMerge parseEx wsA).1.isProcessing = false ∧
    (handleSplit parseEx wsA).1.isProcessing = false ∧
    (handleAiAnalyze parseTextEx geminiEx wsA).isProcessing = false ∧
    (handleFileUpload parseEx mkFileIdEx mkRefIdEx thumbEx [up1]
      wsA).1.isProcessing = false ∧
    (handleFileUpload parseEx mkFileIdEx mkRefIdEx thumbEx [upBad]
      wsA).1.isProcessing = true :=
  ⟨rfl, rfl, rfl, rfl, rfl⟩

theorem foldl_eq_of_mem {α β : Type} (f g : β → α → β) :
    ∀ (l : List α) (b : β), (∀ x ∈ l, ∀ acc, f acc x = g acc x) →
      l.foldl f b = l.foldl g b := by
  intro l
  induction l with
  | nil => intro b _; rfl
  | cons x xs ih =>
    intro b h
    simp only [List.foldl_cons]
    rw [h x (by simp)]
    exact ih _ (fun y hy acc => h y (by simp [hy]) acc)

theorem extractText_take_five (pages : List String) :
    extractText pages = extractText (pages.take 5) := by
  rw [extractText, extractText]
  have hlen : min (pages.take 5).length 5 = min pages.length 5 := by
    simp [List.length_take, Nat.min_assoc]
    exact Nat.min_comm _ _
  rw [hlen]
  apply foldl_eq_of_mem
  intro i hi acc
  have hi5 : i < 5 := by
    simp only [List.mem_range] at hi
    omega
  have ht : (pages.take 5).get? i = pages.get? i := by
    rw [List.get?_eq_getElem?, List.get?_eq_getElem?,
      List.getElem?_take_of_lt hi5]
  rw [ht]

/-- C10: the analyze handler derives its text from the first uploaded
source document only — its stored insight equals that of a workspace
holding nothing but that file — and `extractText` reads at most the
first `min(pageCount, 5)` pages of it. -/
theorem analyze_first_file_first_pages (parseText : TextCodec)
    (gemini : String → Option String) (s : WorkspaceState)
    (f : PDFFile) (fs : List PDFFile) (hf : s.files = f :: fs) :
    (handleAiAnalyze parseText gemini s).aiInsights =
      (handleAiAnalyze parseText gemini
        { files := [f], pages := [], isProcessing := false,
          aiInsights := none }).aiInsights ∧
    ∀ pages : List String,
      extractText pages = extractText (pages.take 5) := by
  refine ⟨?_, extractText_take_five⟩
  obtain ⟨files, pages, ip, ai⟩ := s
  simp only at hf
  subst hf
  simp only [handleAiAnalyze]
  cases hp : parseText f.data <;> simp [hp]

theorem analyze_first_file_first_pages_witness :
    wsA.files = fileA :: [] ∧
    ((handleAiAnalyze parseTextEx geminiEx wsA).aiInsights =
      (handleAiAnalyze parseTextEx geminiEx
        { files := [fileA], pages := [], isProcessing := false,
          aiInsights := none }).aiInsights ∧
    ∀ pages : List String,
      extractText pages = extractText (pages.take 5)) :=
  ⟨rfl, analyze_first_file_first_pages parseTextEx geminiEx wsA fileA []
    rfl⟩
